import Mathlib

/-
Verification of the task-definition and dependency-wiring layer
(src/prefect/task.py): task identity and registry, the argument-binding
protocol of Task.__call__, serialization, and the Parameter variant.

The embedding is shallow: Python objects live in an explicit `World`
(object store, weak registry, id-generator state); the work function's
declared signature is a `FnSig`; argument values are a small inductive
`Value`.  Collaborators that are part of this repository but absent from
src/ (prefect.flow.Flow, prefect.context.Context, the Serializable base
class, prefect.utilities.ids.generate_uuid,
prefect.utilities.functions.get_var_kw_arg, prefect.signals.FAIL) are
modelled from the spec where indicated.
-/

namespace Prefect

/-- Python runtime values as they appear in task calls: literals,
upstream task references, and dictionaries (needed because
Signature.bind stores the variable-keyword capture as a nested dict). -/
inductive Value where
  | int : Int → Value
  | str : String → Value
  | task : Nat → Value
  | dict : List (String × Value) → Value

/-- One declared positional-or-keyword parameter of a work function:
its name and whether it has a default value. -/
structure FnParam where
  name : String
  hasDefault : Bool
deriving DecidableEq, Repr

/-- The declared signature of a work function, as written in the source
(unbound): `params` is the ordered list of positional-or-keyword
parameters, the first being the implicit self-reference parameter;
`varKw` is the name of the variable-keyword capture parameter
(** -parameter), when one is declared (it comes last in Python). -/
structure FnSig where
  params : List FnParam
  varKw : Option String

/-- First-match association lookup on a key, the model of Python dict
indexing (dicts never hold a key twice, so first-match is exact). -/
def lookupKey (key : String) : List (String × α) → Option α
  | [] => Option.none
  | (k, v) :: rest => if k = key then some v else lookupKey key rest

/-- Remove the entry for a key (the model of dict.pop with a default:
the list is unchanged when the key is absent). -/
def removeKey (key : String) : List (String × α) → List (String × α)
  | [] => []
  | (k, v) :: rest => if k = key then rest else (k, v) :: removeKey key rest

/-- The binding failures Signature.bind can raise (all TypeError in
CPython; the spec groups them as BindingError). -/
inductive BindingError where
  | missingRequired : String → BindingError
  | duplicateBinding : String → BindingError
  | unexpectedKeyword : String → BindingError
  | tooManyPositional : BindingError
deriving DecidableEq, Repr

/-- Positional phase of Signature.bind: assign positional arguments to
parameters left to right.  A positionally filled parameter whose name
also appears among the keyword arguments is a duplicate binding;
positional arguments beyond the declared parameters fail. Returns the
positional bindings and the parameters left unfilled. -/
def bindPositional (kwargs : List (String × Value)) :
    List FnParam → List Value →
    Except BindingError (List (String × Value) × List FnParam)
  | ps, [] => .ok ([], ps)
  | [], _ :: _ => .error .tooManyPositional
  | p :: ps, a :: rest =>
    if (lookupKey p.name kwargs).isSome then
      .error (.duplicateBinding p.name)
    else
      match bindPositional kwargs ps rest with
      | .ok (bound, unfilled) => .ok ((p.name, a) :: bound, unfilled)
      | .error e => .error e

/-- Keyword phase of Signature.bind: for each parameter left unfilled,
take the matching keyword argument if present, skip it if it has a
default, and fail when a required parameter gets no value.  Returns the
keyword bindings and the keyword arguments left over. -/
def bindKeywords :
    List FnParam → List (String × Value) →
    Except BindingError (List (String × Value) × List (String × Value))
  | [], kwargs => .ok ([], kwargs)
  | p :: ps, kwargs =>
    match lookupKey p.name kwargs with
    | some v =>
      match bindKeywords ps (removeKey p.name kwargs) with
      | .ok (bound, leftover) => .ok ((p.name, v) :: bound, leftover)
      | .error e => .error e
    | Option.none =>
      if p.hasDefault then bindKeywords ps kwargs
      else .error (.missingRequired p.name)

/-- Model of inspect.signature(self.run).bind(args, kwargs).arguments:
the bound method drops the self parameter; leftover keyword arguments
are absorbed into the variable-keyword capture parameter as a single
dict-valued entry when one is declared, and are rejected otherwise. -/
def bindArguments (sig : FnSig) (args : List Value)
    (kwargs : List (String × Value)) :
    Except BindingError (List (String × Value)) :=
  match bindPositional kwargs (sig.params.drop 1) args with
  | .error e => .error e
  | .ok (posBound, unfilled) =>
    match bindKeywords unfilled kwargs with
    | .error e => .error e
    | .ok (kwBound, leftover) =>
      match sig.varKw with
      | some kw =>
        .ok (posBound ++ kwBound ++
          (if leftover.isEmpty then [] else [(kw, Value.dict leftover)]))
      | Option.none =>
        match leftover with
        | [] => .ok (posBound ++ kwBound)
        | (k, _) :: _ => .error (.unexpectedKeyword k)

/-- Modelled from the spec: prefect.utilities.functions.get_var_kw_arg
(not in src/) returns the name of the work function's variable-keyword
capture parameter, or None when there is none. -/
def get_var_kw_arg (sig : FnSig) : Option String := sig.varKw

/-- Model of callargs.update(callargs.pop(var_kw_arg, default-empty)):
when a variable-keyword capture parameter exists and was bound, its
dict entry is removed and its accumulated entries are appended at top
level; otherwise the map is unchanged. -/
def flattenVarKw (sig : FnSig) (callargs : List (String × Value)) :
    List (String × Value) :=
  match get_var_kw_arg sig with
  | Option.none => callargs
  | some kw =>
    match lookupKey kw callargs with
    | some (Value.dict d) => removeKey kw callargs ++ d
    | some _ => removeKey kw callargs
    | Option.none => callargs

/-- A labeled dependency edge from an upstream value to a task node. -/
structure Edge where
  source : Value
  target : Nat
  label : String

/-- Modelled from the spec: prefect.flow.Flow (external collaborator,
not in src/) owns task nodes and labeled edges; a new flow is empty. -/
structure Flow where
  tasks : List Nat
  edges : List Edge

def Flow.empty : Flow := ⟨[], []⟩

/-- Modelled from the spec: Flow.add_task adds a node, idempotently. -/
def Flow.add_task (f : Flow) (t : Nat) : Flow :=
  if t ∈ f.tasks then f else { f with tasks := f.tasks ++ [t] }

/-- Modelled from the spec: Flow.set_dependencies registers the task as
a node and one labeled edge per entry of the final binding map. -/
def Flow.set_dependencies (f : Flow) (t : Nat)
    (keyword_results : List (String × Value)) : Flow :=
  let f1 := f.add_task t
  { f1 with
    edges := f1.edges ++
      keyword_results.map (fun kv => ⟨kv.2, t, kv.1⟩) }

/-- Model of Task.__call__: bind the call's arguments against the work
function's signature (raising a BindingError on failure), flatten the
variable-keyword capture, resolve the ambient flow (the context's flow
when one is being built, a fresh empty flow otherwise), and register
the task and its argument edges there.  `self` is the calling task's
store reference; `ctxFlow` is Context.get of the flow key. -/
def Task.call (sig : FnSig) (self : Nat) (ctxFlow : Option Flow)
    (args : List Value) (kwargs : List (String × Value)) :
    Except BindingError (Flow × Nat) :=
  match bindArguments sig args kwargs with
  | .error e => .error e
  | .ok callargs0 =>
    let callargs := flattenVarKw sig callargs0
    let flow := ctxFlow.getD Flow.empty
    .ok (flow.set_dependencies self callargs, self)

/-- Trigger predicates are opaque to this core: stored and serialized,
never invoked.  all_successful is the default set at construction. -/
inductive Trigger where
  | all_successful : Trigger
  | custom : String → Trigger
deriving DecidableEq, Repr, Inhabited

/-- A task object's fields, as assigned by Task.__init__: id, name,
description, retry and timeout policy, trigger, a reference to the
secrets mapping (a heap reference, so that shallow copies share it),
the version string captured at construction, and the concrete class
name (type(self).__name__). -/
structure Task where
  id : String
  name : String
  description : Option String
  max_retries : Int
  retry_delay : Int
  timeout : Option Int
  trigger : Trigger
  secrets : Nat
  _prefect_version : String
  typeName : String
deriving DecidableEq, Repr, Inhabited

/-- The process state: the object store (a task's reference is its
index), TASK_REGISTRY as an association list whose most recent entry
for an id wins (dict-assignment semantics), the id-generator session
counter, and a fresh-reference counter for secrets dictionaries. -/
structure World where
  store : List Task
  registry : List (String × Nat)
  counter : Nat
  secretsCounter : Nat
deriving DecidableEq, Repr

/-- Modelled from the spec: prefect.utilities.ids.generate_uuid (not in
src/) issues a universally-unique opaque token per call; uniqueness
within a session is modelled by a counter, the n-th token being a
string of length n + 1 so that distinct counters give distinct ids. -/
def uuidString (n : Nat) : String := String.mk (List.replicate (n + 1) 'u')

/-- Modelled from the spec: draw a fresh unique id from the session. -/
def generate_uuid (w : World) : String × World :=
  (uuidString w.counter, { w with counter := w.counter + 1 })

/-- The task stored at a reference (out-of-range reads give the default
task; theorems carry in-range hypotheses where it matters). -/
def World.task (w : World) (ref : Nat) : Task :=
  w.store.getD ref default

/-- Task.register: TASK_REGISTRY assignment of self under self.id. -/
def World.register (w : World) (ref : Nat) : World :=
  { w with registry := ((w.task ref).id, ref) :: w.registry }

/-- The id property setter: store the new id, then re-register. -/
def World.setTaskId (w : World) (ref : Nat) (x : String) : World :=
  let w1 := { w with store := w.store.set ref { w.task ref with id := x } }
  w1.register ref

/-- Task.short_id: the first 8 characters of the id. -/
def Task.short_id (t : Task) : String := t.id.take 8

/-- Model of Task.__init__: generate and assign a fresh id (the setter
registers the task), default the name from the concrete class name,
default the trigger to all_successful, allocate a fresh secrets mapping
when none is given, register again explicitly, capture the version
string, and add the task to the ambient flow when one is being built.
The id argument is accepted, as in the source, and never read. -/
def Task.init (w : World) (typeName ver : String) (name : Option String)
    (id : Option String) (description : Option String)
    (max_retries : Int) (retry_delay : Int) (timeout : Option Int)
    (trigger : Option Trigger) (secrets : Option Nat)
    (ctxFlow : Option Flow) : World × Nat × Option Flow :=
  let ref := w.store.length
  let p := generate_uuid w
  let w1 := p.2
  let secretsAlloc : Nat × World :=
    match secrets with
    | some s => (s, w1)
    | Option.none =>
      (w1.secretsCounter, { w1 with secretsCounter := w1.secretsCounter + 1 })
  let t : Task :=
    { id := p.1
      name := name.getD typeName
      description := description
      max_retries := max_retries
      retry_delay := retry_delay
      timeout := timeout
      trigger := trigger.getD Trigger.all_successful
      secrets := secretsAlloc.1
      _prefect_version := ver
      typeName := typeName }
  let w2 := { secretsAlloc.2 with store := secretsAlloc.2.store ++ [t] }
  let w3 := w2.register ref
  let w4 := w3.register ref
  (w4, ref, ctxFlow.map (fun f => f.add_task ref))

/-- Task.copy: a shallow duplicate of all fields (the secrets reference
is copied, not the mapping), then a fresh identifier (whose assignment
re-registers) and another explicit registration. -/
def Task.copy (w : World) (ref : Nat) : World × Nat :=
  let t := w.task ref
  let newRef := w.store.length
  let w1 := { w with store := w.store ++ [t] }
  let p := generate_uuid w1
  let w2 := p.2.setTaskId newRef p.1
  let w3 := w2.register newRef
  (w3, newRef)

/-- Task.inputs: the keys of inspect.signature(self.run).parameters for
the bound method — every declared parameter name in declaration order
except the implicit self-reference, the variable-keyword capture
parameter last when declared. -/
def Task.inputs (sig : FnSig) : List String :=
  (sig.params.drop 1).map FnParam.name ++
    (match sig.varKw with
     | Option.none => []
     | some k => [k])

/-- Values as they appear in the serialized mapping. -/
inductive PyValue where
  | none : PyValue
  | str : String → PyValue
  | int : Int → PyValue
  | trig : Trigger → PyValue
deriving DecidableEq, Repr

def encodeOptStr : Option String → PyValue
  | Option.none => PyValue.none
  | some s => PyValue.str s

def encodeOptInt : Option Int → PyValue
  | Option.none => PyValue.none
  | some n => PyValue.int n

/-- Modelled from the spec: the Serializable base class (not in src/)
contributes no keys of its own — the spec fixes the serialized key set
to exactly the nine keys written by Task.serialize. -/
def serializeBase : List (String × PyValue) := []

/-- Task.serialize: the base mapping updated with the nine fields, in
the order the source writes them; the version key is prefect_version. -/
def Task.serialize (t : Task) : List (String × PyValue) :=
  serializeBase ++
    [("name", PyValue.str t.name),
     ("id", PyValue.str t.id),
     ("description", encodeOptStr t.description),
     ("max_retries", PyValue.int t.max_retries),
     ("retry_delay", PyValue.int t.retry_delay),
     ("timeout", encodeOptInt t.timeout),
     ("trigger", PyValue.trig t.trigger),
     ("type", PyValue.str t.typeName),
     ("prefect_version", PyValue.str t._prefect_version)]

def decodeStr : Option PyValue → String
  | some (PyValue.str s) => s
  | _ => ""

def decodeOptStr : Option PyValue → Option String
  | some (PyValue.str s) => some s
  | _ => Option.none

def decodeInt : Option PyValue → Int
  | some (PyValue.int n) => n
  | _ => 0

def decodeOptInt : Option PyValue → Option Int
  | some (PyValue.int n) => some n
  | _ => Option.none

def decodeTrig : Option PyValue → Option Trigger
  | some (PyValue.trig t) => some t
  | _ => Option.none

/-- Task.after_deserialize: override the reconstructed task's id with
the mapping's id field (the setter re-registers) and register again. -/
def Task.after_deserialize (w : World) (ref : Nat)
    (serialized : List (String × PyValue)) : World :=
  let w1 := w.setTaskId ref (decodeStr (lookupKey "id" serialized))
  w1.register ref

/-- Modelled from the spec: Serializable.deserialize (base class, not
in src/) reconstructs a task of the variant named by the type field,
restoring the serialized configuration fields through the constructor
(which generates a provisional id), then applies after_deserialize,
which is in src/ and makes the mapping's id authoritative. -/
def Task.deserialize (w : World) (ver : String)
    (m : List (String × PyValue)) : World × Nat :=
  let r := Task.init w (decodeStr (lookupKey "type" m)) ver
    (some (decodeStr (lookupKey "name" m))) Option.none
    (decodeOptStr (lookupKey "description" m))
    (decodeInt (lookupKey "max_retries" m))
    (decodeInt (lookupKey "retry_delay" m))
    (decodeOptInt (lookupKey "timeout" m))
    (decodeTrig (lookupKey "trigger" m))
    Option.none Option.none
  (Task.after_deserialize r.1 r.2.1 m, r.2.1)

/-- Modelled from the spec: prefect.signals (not in src/) provides a
distinguishable controlled-failure condition carrying a message. -/
inductive Signal where
  | FAIL : String → Signal
deriving DecidableEq, Repr

/-- The message Parameter.run formats for a missing required value. -/
def missingParamMsg (name : String) : String :=
  "Parameter \"" ++ (name ++ "\" was required but not provided.")

/-- Parameter.run: read the ambient runtime-parameters mapping; fail
with a controlled FAIL signal when the parameter is required but
absent; otherwise return the mapped value, or the default if absent. -/
def Parameter.run (name : String) (required : Bool) (default : PyValue)
    (parameters : List (String × PyValue)) : Except Signal PyValue :=
  if required && (lookupKey name parameters).isNone then
    .error (.FAIL (missingParamMsg name))
  else
    .ok ((lookupKey name parameters).getD default)

/-- The string s contains sub as a contiguous substring. -/
def strContains (s sub : String) : Prop :=
  ∃ pre post, s = pre ++ (sub ++ post)

/-- A concrete task used to evaluate serialization at a fixed input. -/
def t0 : Task :=
  { id := "i", name := "n", description := Option.none, max_retries := 0,
    retry_delay := 60, timeout := Option.none,
    trigger := Trigger.all_successful, secrets := 0,
    _prefect_version := "v", typeName := "Task" }

/- ------------------------------------------------------------------
Helper lemmas
------------------------------------------------------------------ -/

@[simp]
theorem getElem?_append_len (l : List α) (a : α) :
    (l ++ [a])[l.length]? = some a := by
  simp

@[simp]
theorem getElem?_set_len (l : List α) (n : Nat) (b : α)
    (h : n < l.length) : (l.set n b)[n]? = some b := by
  induction l generalizing n with
  | nil => simp at h
  | cons x xs ih =>
    cases n with
    | zero => simp [List.set]
    | succ m =>
      have hm : m < xs.length := by simpa using h
      simpa using ih m hm

@[simp]
theorem lookupKey_cons_self (k : String) (v : α)
    (rest : List (String × α)) :
    lookupKey k ((k, v) :: rest) = some v := by
  simp [lookupKey]

/- ------------------------------------------------------------------
C5: id assignment registers and short_id
------------------------------------------------------------------ -/

/-- C5: immediately after the id-setter assignment t.id = x, a registry
lookup of x returns t, and t.short_id is exactly the first 8 characters
of x. -/
theorem id_assignment_registers (w : World) (ref : Nat) (x : String)
    (h : ref < w.store.length) :
    lookupKey x (w.setTaskId ref x).registry = some ref ∧
    ((w.setTaskId ref x).task ref).short_id = x.take 8 := by
  have hlt : ref < (w.store.set ref { w.task ref with id := x }).length := by
    simpa using h
  constructor
  · simp [World.setTaskId, World.register, World.task,
      getElem?_set_len _ _ _ h]
  · simp [World.setTaskId, World.register, World.task, Task.short_id,
      getElem?_set_len _ _ _ h]

/-- C5 witness: instantiated on a world holding a single fresh task. -/
theorem id_assignment_registers_witness :
    lookupKey "abcdefghij"
        ((World.mk [t0] [] 0 0).setTaskId 0 "abcdefghij").registry =
      some 0 ∧
    (((World.mk [t0] [] 0 0).setTaskId 0 "abcdefghij").task 0).short_id =
      "abcdefgh" := by
  have h := id_assignment_registers (World.mk [t0] [] 0 0) 0 "abcdefghij"
    (by decide)
  exact ⟨h.1, h.2.trans (by decide)⟩

/- ------------------------------------------------------------------
C10: the constructor ignores an explicit id argument
------------------------------------------------------------------ -/

/-- C10: an explicit id argument to the constructor is accepted but
ignored — construction is identical to passing no id, the new task's id
is the freshly generated token, and the task is registered under it. -/
theorem init_ignores_id_argument (w : World) (ty ver : String)
    (nm idArg desc : Option String) (mr rd : Int) (tmo : Option Int)
    (tr : Option Trigger) (sec : Option Nat) (ctx : Option Flow) :
    Task.init w ty ver nm idArg desc mr rd tmo tr sec ctx =
      Task.init w ty ver nm Option.none desc mr rd tmo tr sec ctx ∧
    (((Task.init w ty ver nm idArg desc mr rd tmo tr sec ctx).1).task
        ((Task.init w ty ver nm idArg desc mr rd tmo tr sec ctx).2.1)).id =
      uuidString w.counter ∧
    lookupKey (uuidString w.counter)
        ((Task.init w ty ver nm idArg desc mr rd tmo tr sec ctx).1).registry =
      some ((Task.init w ty ver nm idArg desc mr rd tmo tr sec ctx).2.1) := by
  refine ⟨rfl, ?_, ?_⟩
  · cases sec <;>
      simp [Task.init, World.task, World.register, generate_uuid]
  · cases sec <;>
      simp [Task.init, World.task, World.register, generate_uuid]

/- ------------------------------------------------------------------
C2: serialized key set (corrected: the version key is prefect_version)
------------------------------------------------------------------ -/

/-- C2 counterexample: at a concrete task, the serialized mapping has
no key named version; the version string is under prefect_version. -/
theorem serialize_version_key_counterexample :
    "version" ∉ (Task.serialize t0).map Prod.fst ∧
    "prefect_version" ∈ (Task.serialize t0).map Prod.fst := by
  decide

/-- C2 amended: serialize produces a flat mapping whose keys are
exactly name, id, description, max_retries, retry_delay, timeout,
trigger, type, prefect_version; type is the concrete variant's name and
prefect_version is the system version string captured at construction
and carried through serialization unchanged. -/
theorem serialize_keys_amended :
    (∀ t : Task,
      (Task.serialize t).map Prod.fst =
        ["name", "id", "description", "max_retries", "retry_delay",
         "timeout", "trigger", "type", "prefect_version"] ∧
      lookupKey "prefect_version" (Task.serialize t) =
        some (PyValue.str t._prefect_version) ∧
      lookupKey "type" (Task.serialize t) = some (PyValue.str t.typeName)) ∧
    (∀ (w : World) (ty ver : String) (nm idArg desc : Option String)
        (mr rd : Int) (tmo : Option Int) (tr : Option Trigger)
        (sec : Option Nat) (ctx : Option Flow),
      (((Task.init w ty ver nm idArg desc mr rd tmo tr sec ctx).1).task
          ((Task.init w ty ver nm idArg desc mr rd tmo tr sec ctx).2.1)
        )._prefect_version = ver) := by
  constructor
  · intro t
    refine ⟨rfl, ?_, ?_⟩ <;> rfl
  · intro w ty ver nm idArg desc mr rd tmo tr sec ctx
    cases sec <;>
      simp [Task.init, World.task, World.register, generate_uuid]

/- ------------------------------------------------------------------
C8: inputs returns declared parameter names, self excluded
------------------------------------------------------------------ -/

/-- C8: inputs returns the work function's declared parameter names in
declaration order with the implicit self-reference excluded (the
variable-keyword capture name, when declared, comes last); on the
signature (self, x, y, c=None) it returns x, y, c. -/
theorem inputs_declaration_order :
    (∀ (selfParam : FnParam) (ps : List FnParam) (vk : Option String),
      Task.inputs ⟨selfParam :: ps, vk⟩ = ps.map FnParam.name ++ vk.toList) ∧
    Task.inputs
        ⟨[⟨"self", false⟩, ⟨"x", false⟩, ⟨"y", false⟩, ⟨"c", true⟩],
         Option.none⟩ =
      ["x", "y", "c"] := by
  constructor
  · intro selfParam ps vk
    cases vk <;> simp [Task.inputs, Option.toList]
  · rfl

/- ------------------------------------------------------------------
C7: Parameter.run required/default semantics
------------------------------------------------------------------ -/

/-- C7: invoking a Parameter against the ambient runtime-parameters
mapping raises a controlled FAIL signal whose message contains the
parameter's name when it is required and absent; returns the mapped
value when present; returns the default when absent and not required. -/
theorem parameter_run_cases (name : String) (required : Bool)
    (default : PyValue) (params : List (String × PyValue)) :
    (required = true → lookupKey name params = Option.none →
      Parameter.run name required default params =
        .error (.FAIL (missingParamMsg name)) ∧
      strContains (missingParamMsg name) name) ∧
    (∀ v, lookupKey name params = some v →
      Parameter.run name required default params = .ok v) ∧
    (required = false → lookupKey name params = Option.none →
      Parameter.run name required default params = .ok default) := by
  refine ⟨?_, ?_, ?_⟩
  · intro hreq habs
    subst hreq
    refine ⟨by simp [Parameter.run, habs], ?_⟩
    exact ⟨"Parameter \"", "\" was required but not provided.", rfl⟩
  · intro v hv
    simp [Parameter.run, hv]
  · intro hreq habs
    subst hreq
    simp [Parameter.run, habs]

/-- C7 witness: the three cases at concrete inputs. -/
theorem parameter_run_cases_witness :
    Parameter.run "n" true PyValue.none [] =
      .error (.FAIL (missingParamMsg "n")) ∧
    strContains (missingParamMsg "n") "n" ∧
    Parameter.run "x" true (PyValue.int 5) [("x", PyValue.int 7)] =
      .ok (PyValue.int 7) ∧
    Parameter.run "y" false (PyValue.int 5) [] = .ok (PyValue.int 5) := by
  refine ⟨?_, ?_, ?_, ?_⟩
  · exact ((parameter_run_cases "n" true PyValue.none []).1 rfl rfl).1
  · exact ((parameter_run_cases "n" true PyValue.none []).1 rfl rfl).2
  · exact (parameter_run_cases "x" true (PyValue.int 5)
      [("x", PyValue.int 7)]).2.1 (PyValue.int 7) rfl
  · exact (parameter_run_cases "y" false (PyValue.int 5) []).2.2 rfl rfl

/- ------------------------------------------------------------------
C4: ambient flow resolution in Task.__call__
------------------------------------------------------------------ -/

/-- C4: a task call behaves exactly as if the resolved flow — the
ambient one when a flow is being built, a newly created empty flow
otherwise — were ambient for the remainder of the call; and with an
ambient flow f, a successful call registers into f (the resulting flow
is f extended through set_dependencies). -/
theorem call_resolves_ambient_flow (sig : FnSig) (self : Nat)
    (ctxFlow : Option Flow) (args : List Value)
    (kwargs : List (String × Value)) :
    Task.call sig self ctxFlow args kwargs =
      Task.call sig self (some (ctxFlow.getD Flow.empty)) args kwargs ∧
    (∀ f, ctxFlow = some f →
      ∀ fl r, Task.call sig self ctxFlow args kwargs = .ok (fl, r) →
        ∃ ca, fl = f.set_dependencies self ca) := by
  constructor
  · cases ctxFlow <;> rfl
  · intro f hf fl r hcall
    subst hf
    unfold Task.call at hcall
    cases hbind : bindArguments sig args kwargs with
    | error e =>
      rw [hbind] at hcall
      cases hcall
    | ok ca0 =>
      rw [hbind] at hcall
      simp at hcall
      exact ⟨flattenVarKw sig ca0, hcall.1.symm⟩

/-- C4 witness: a call with an ambient flow registers into it. -/
theorem call_resolves_ambient_flow_witness :
    ∃ ca, Flow.empty.set_dependencies 3 [] =
      Flow.empty.set_dependencies 3 ca := by
  have h := call_resolves_ambient_flow ⟨[⟨"self", false⟩], Option.none⟩ 3
    (some Flow.empty) [] []
  exact h.2 Flow.empty rfl (Flow.empty.set_dependencies 3 []) 3 rfl

/- ------------------------------------------------------------------
Association-list helper lemmas for the binding proofs
------------------------------------------------------------------ -/

theorem removeKey_lookup_none (k k2 : String) (l : List (String × α))
    (h : lookupKey k l = Option.none) :
    lookupKey k (removeKey k2 l) = Option.none := by
  induction l with
  | nil => rfl
  | cons a rest ih =>
    obtain ⟨k1, v1⟩ := a
    by_cases h1 : k1 = k
    · simp [lookupKey, h1] at h
    · simp only [lookupKey, if_neg h1] at h
      by_cases h2 : k1 = k2
      · simpa [removeKey, h2] using h
      · simpa [removeKey, h2, lookupKey, h1] using ih h

theorem mem_removeKey (kv : String × α) (k2 : String)
    (l : List (String × α)) (h : kv ∈ l) (hne : kv.1 ≠ k2) :
    kv ∈ removeKey k2 l := by
  induction l with
  | nil => cases h
  | cons a rest ih =>
    obtain ⟨k1, v1⟩ := a
    rcases List.mem_cons.mp h with heq | hmem
    · subst heq
      simp [removeKey, if_neg hne]
    · by_cases h2 : k1 = k2
      · simpa [removeKey, h2] using hmem
      · simp [removeKey, h2, List.mem_cons]
        right
        exact ih hmem

theorem lookupKey_append_not_mem (k : String) (l1 l2 : List (String × α))
    (h : ∀ e ∈ l1, e.1 ≠ k) :
    lookupKey k (l1 ++ l2) = lookupKey k l2 := by
  induction l1 with
  | nil => rfl
  | cons a rest ih =>
    obtain ⟨k1, v1⟩ := a
    have hne : k1 ≠ k := h (k1, v1) (List.mem_cons_self _ _)
    simpa [lookupKey, hne] using
      ih (fun e he => h e (List.mem_cons_of_mem _ he))

theorem removeKey_append_not_mem (k : String) (l1 l2 : List (String × α))
    (h : ∀ e ∈ l1, e.1 ≠ k) :
    removeKey k (l1 ++ l2) = l1 ++ removeKey k l2 := by
  induction l1 with
  | nil => rfl
  | cons a rest ih =>
    obtain ⟨k1, v1⟩ := a
    have hne : k1 ≠ k := h (k1, v1) (List.mem_cons_self _ _)
    simpa [removeKey, hne] using
      ih (fun e he => h e (List.mem_cons_of_mem _ he))

/- ------------------------------------------------------------------
Characterization of the binding phases
------------------------------------------------------------------ -/

/-- When the positional phase succeeds: the unfilled parameters are
exactly those after the positional arguments, no positionally filled
parameter name occurs among the keyword arguments, and the positional
bindings are labeled by the filled parameters in order. -/
theorem bindPositional_ok (kwargs : List (String × Value)) :
    ∀ (args : List Value) (ps : List FnParam)
      (bound : List (String × Value)) (unfilled : List FnParam),
      bindPositional kwargs ps args = .ok (bound, unfilled) →
      unfilled = ps.drop args.length ∧
      (∀ p ∈ ps.take args.length, lookupKey p.name kwargs = Option.none) ∧
      bound.map Prod.fst = (ps.take args.length).map FnParam.name
  | [], ps, bound, unfilled => by
    intro h
    simp [bindPositional] at h
    obtain ⟨h1, h2⟩ := h
    subst h1
    subst h2
    simp
  | a :: rest, [], bound, unfilled => by
    intro h
    simp [bindPositional] at h
  | a :: rest, p :: ps, bound, unfilled => by
    intro h
    unfold bindPositional at h
    by_cases hk : (lookupKey p.name kwargs).isSome
    · simp [hk] at h
    · rw [if_neg hk] at h
      cases hrec : bindPositional kwargs ps rest with
      | error e => rw [hrec] at h; cases h
      | ok pr =>
        obtain ⟨b2, u2⟩ := pr
        rw [hrec] at h
        simp only [Except.ok.injEq, Prod.mk.injEq] at h
        obtain ⟨hb, hu⟩ := h
        subst hb
        subst hu
        have ih := bindPositional_ok kwargs rest ps b2 u2 hrec
        refine ⟨by simpa using ih.1, ?_, ?_⟩
        · intro q hq
          rcases List.mem_cons.mp (by simpa using hq) with heq | hmem
          · subst heq
            exact Option.not_isSome_iff_eq_none.mp hk
          · exact ih.2.1 q hmem
        · simpa using ih.2.2

/-- When the keyword phase succeeds: every unfilled parameter without a
default found a keyword argument, every keyword argument naming no
unfilled parameter survives into the leftovers, and every keyword
binding is labeled by an unfilled parameter. -/
theorem bindKeywords_ok :
    ∀ (ps : List FnParam) (kwargs bound leftover : List (String × Value)),
      bindKeywords ps kwargs = .ok (bound, leftover) →
      (∀ p ∈ ps, p.hasDefault = false →
        (lookupKey p.name kwargs).isSome = true) ∧
      (∀ kv ∈ kwargs, kv.1 ∉ ps.map FnParam.name → kv ∈ leftover) ∧
      (∀ e ∈ bound, e.1 ∈ ps.map FnParam.name)
  | [], kwargs, bound, leftover => by
    intro h
    simp [bindKeywords] at h
    obtain ⟨h1, h2⟩ := h
    subst h1
    subst h2
    exact ⟨by simp, fun kv hkv _ => hkv, by simp⟩
  | p :: ps, kwargs, bound, leftover => by
    intro h
    unfold bindKeywords at h
    cases hl : lookupKey p.name kwargs with
    | some v =>
      rw [hl] at h
      cases hrec : bindKeywords ps (removeKey p.name kwargs) with
      | error e => rw [hrec] at h; cases h
      | ok pr =>
        obtain ⟨b2, l2⟩ := pr
        rw [hrec] at h
        simp only [Except.ok.injEq, Prod.mk.injEq] at h
        obtain ⟨hb, hlo⟩ := h
        subst hb
        subst hlo
        have ih := bindKeywords_ok ps (removeKey p.name kwargs) b2 l2 hrec
        refine ⟨?_, ?_, ?_⟩
        · intro q hq hd
          rcases List.mem_cons.mp hq with heq | hmem
          · subst heq
            simp [hl]
          · have hq2 := ih.1 q hmem hd
            by_cases hn : lookupKey q.name kwargs = Option.none
            · rw [removeKey_lookup_none q.name p.name kwargs hn] at hq2
              simp at hq2
            · exact Option.isSome_iff_ne_none.mpr hn
        · intro kv hkv hnm
          simp only [List.map_cons, List.mem_cons, not_or] at hnm
          exact ih.2.1 kv (mem_removeKey kv p.name kwargs hkv hnm.1) hnm.2
        · intro e he
          rcases List.mem_cons.mp he with heq | hmem
          · subst heq
            simp
          · simp only [List.map_cons, List.mem_cons]
            right
            exact ih.2.2 e hmem
    | none =>
      rw [hl] at h
      by_cases hd : p.hasDefault
      · rw [if_pos hd] at h
        have ih := bindKeywords_ok ps kwargs bound leftover h
        refine ⟨?_, ?_, ?_⟩
        · intro q hq hdq
          rcases List.mem_cons.mp hq with heq | hmem
          · subst heq
            rw [hd] at hdq
            cases hdq
          · exact ih.1 q hmem hdq
        · intro kv hkv hnm
          simp only [List.map_cons, List.mem_cons, not_or] at hnm
          exact ih.2.1 kv hkv hnm.2
        · intro e he
          simp only [List.map_cons, List.mem_cons]
          right
          exact ih.2.2 e he
      · rw [if_neg hd] at h
        cases h

/-- Decomposition of a successful bind: both phases succeeded, with no
leftover keyword arguments unless a variable-keyword capture parameter
absorbs them as a single dict-valued entry. -/
theorem bindArguments_ok (sig : FnSig) (args : List Value)
    (kwargs callargs : List (String × Value))
    (h : bindArguments sig args kwargs = .ok callargs) :
    ∃ posBound unfilled kwBound leftover,
      bindPositional kwargs (sig.params.drop 1) args =
        .ok (posBound, unfilled) ∧
      bindKeywords unfilled kwargs = .ok (kwBound, leftover) ∧
      (sig.varKw = Option.none →
        leftover = [] ∧ callargs = posBound ++ kwBound) ∧
      (∀ kw, sig.varKw = some kw →
        callargs = posBound ++ kwBound ++
          (if leftover.isEmpty then [] else [(kw, Value.dict leftover)])) := by
  unfold bindArguments at h
  cases hpos : bindPositional kwargs (sig.params.drop 1) args with
  | error e => rw [hpos] at h; cases h
  | ok pr =>
    obtain ⟨pb, unf⟩ := pr
    rw [hpos] at h
    dsimp only at h
    cases hkw : bindKeywords unf kwargs with
    | error e => rw [hkw] at h; cases h
    | ok qr =>
      obtain ⟨kb, lo⟩ := qr
      rw [hkw] at h
      dsimp only at h
      refine ⟨pb, unf, kb, lo, rfl, hkw, ?_, ?_⟩
      · intro hvk
        rw [hvk] at h
        cases lo with
        | nil =>
          simp only [Except.ok.injEq] at h
          exact ⟨rfl, h.symm⟩
        | cons x xs => cases h
      · intro kw hvk
        rw [hvk] at h
        simp only [Except.ok.injEq] at h
        exact h.symm

/- ------------------------------------------------------------------
C1: unbindable calls fail synchronously with a BindingError
------------------------------------------------------------------ -/

/-- C1: a task call whose arguments cannot be bound to the work
function's declared parameters — a required parameter (other than the
variable-keyword capture parameter) receives no value, an argument
would bind to more than one parameter name, or an unrecognized keyword
name is supplied with no capture parameter — fails synchronously with a
BindingError (the call's only error channel in this model, so no other
kind of error). -/
theorem call_fails_with_binding_error (sig : FnSig) (self : Nat)
    (ctxFlow : Option Flow) (args : List Value)
    (kwargs : List (String × Value))
    (hfail :
      (∃ p ∈ (sig.params.drop 1).drop args.length,
        p.hasDefault = false ∧ lookupKey p.name kwargs = Option.none) ∨
      (∃ p ∈ (sig.params.drop 1).take args.length,
        (lookupKey p.name kwargs).isSome = true) ∨
      (sig.varKw = Option.none ∧
        ∃ kv ∈ kwargs, kv.1 ∉ (sig.params.drop 1).map FnParam.name)) :
    ∃ e, Task.call sig self ctxFlow args kwargs = .error e := by
  suffices hb : ∃ e, bindArguments sig args kwargs = .error e by
    obtain ⟨e, he⟩ := hb
    exact ⟨e, by simp [Task.call, he]⟩
  cases hres : bindArguments sig args kwargs with
  | error e => exact ⟨e, rfl⟩
  | ok callargs =>
    exfalso
    obtain ⟨pb, unf, kb, lo, hpos, hkw, hnone, hsome⟩ :=
      bindArguments_ok sig args kwargs callargs hres
    have hA := bindPositional_ok kwargs args (sig.params.drop 1) pb unf hpos
    have hB := bindKeywords_ok unf kwargs kb lo hkw
    rcases hfail with ⟨p, hp, hd, hln⟩ | ⟨p, hp, hps⟩ | ⟨hvk, kv, hkv, hnm⟩
    · have hpu : p ∈ unf := by rw [hA.1]; exact hp
      have hcontra := hB.1 p hpu hd
      rw [hln] at hcontra
      simp at hcontra
    · have := hA.2.1 p hp
      rw [this] at hps
      simp at hps
    · have hnm2 : kv.1 ∉ unf.map FnParam.name := by
        intro hmem
        apply hnm
        have hsub : List.Sublist (unf.map FnParam.name)
            ((sig.params.drop 1).map FnParam.name) := by
          rw [hA.1]
          exact (List.drop_sublist _ _).map _
        exact hsub.subset hmem
      have hlo : kv ∈ lo := hB.2.1 kv hkv hnm2
      rw [(hnone hvk).1] at hlo
      cases hlo

/-- C1 witness: on the signature (self, x, y), the call task(5) is
missing its required parameter y and fails with a BindingError. -/
theorem call_fails_with_binding_error_witness :
    ∃ e, Task.call ⟨[⟨"self", false⟩, ⟨"x", false⟩, ⟨"y", false⟩],
        Option.none⟩ 0 Option.none [Value.int 5] [] = .error e := by
  apply call_fails_with_binding_error
  left
  exact ⟨⟨"y", false⟩, by simp, rfl, rfl⟩

/- ------------------------------------------------------------------
C9: flattening of the variable-keyword capture
------------------------------------------------------------------ -/

/-- C9: after a successful bind, every entry accumulated under the
variable-keyword capture parameter appears as its own top-level entry
of the final binding map, and the capture parameter's own dict-valued
entry is removed (any entry remaining under that key comes from the
captured dict itself); with no capture parameter the flattening step
leaves the binding map unchanged. -/
theorem var_kw_flattening (sig : FnSig) (args : List Value)
    (kwargs callargs : List (String × Value))
    (hbind : bindArguments sig args kwargs = .ok callargs) :
    (sig.varKw = Option.none → flattenVarKw sig callargs = callargs) ∧
    (∀ kw d, sig.varKw = some kw →
      kw ∉ sig.params.map FnParam.name →
      lookupKey kw callargs = some (Value.dict d) →
      (∀ e ∈ d, e ∈ flattenVarKw sig callargs) ∧
      (∀ v, (kw, v) ∈ flattenVarKw sig callargs → (kw, v) ∈ d)) := by
  constructor
  · intro hvk
    simp [flattenVarKw, get_var_kw_arg, hvk]
  · intro kw d hvk hkwnm hlook
    obtain ⟨pb, unf, kb, lo, hpos, hkw, hnone, hsomef⟩ :=
      bindArguments_ok sig args kwargs callargs hbind
    have hA := bindPositional_ok kwargs args (sig.params.drop 1) pb unf hpos
    have hB := bindKeywords_ok unf kwargs kb lo hkw
    have hdecl : ∀ s, s ∈ (sig.params.drop 1).map FnParam.name → s ≠ kw := by
      intro s hs he
      subst he
      exact hkwnm (((List.drop_sublist 1 sig.params).map FnParam.name).subset hs)
    have hfront : ∀ e ∈ pb ++ kb, e.1 ≠ kw := by
      intro e he
      rcases List.mem_append.mp he with h1 | h2
      · apply hdecl
        have hm : e.1 ∈ pb.map Prod.fst := List.mem_map_of_mem _ h1
        rw [hA.2.2] at hm
        exact ((List.take_sublist _ _).map FnParam.name).subset hm
      · apply hdecl
        have hm := hB.2.2 e h2
        have hsub : List.Sublist (unf.map FnParam.name)
            ((sig.params.drop 1).map FnParam.name) := by
          rw [hA.1]
          exact (List.drop_sublist _ _).map _
        exact hsub.subset hm
    have hca := hsomef kw hvk
    cases lo with
    | nil =>
      exfalso
      rw [hca] at hlook
      simp only [List.isEmpty_nil, if_true] at hlook
      rw [lookupKey_append_not_mem kw (pb ++ kb) [] hfront] at hlook
      cases hlook
    | cons x xs =>
      have hlook2 : lookupKey kw callargs = some (Value.dict (x :: xs)) := by
        rw [hca]
        simp only [List.isEmpty_cons, if_neg]
        rw [lookupKey_append_not_mem kw (pb ++ kb) _ hfront]
        simp [lookupKey]
      have heq := hlook.symm.trans hlook2
      simp only [Option.some.injEq, Value.dict.injEq] at heq
      have hflat : flattenVarKw sig callargs = (pb ++ kb) ++ d := by
        simp only [flattenVarKw, get_var_kw_arg, hvk]
        rw [hlook]
        dsimp only
        rw [hca]
        simp only [List.isEmpty_cons, if_neg]
        rw [removeKey_append_not_mem kw (pb ++ kb) _ hfront]
        simp [removeKey, heq]
      constructor
      · intro e he
        rw [hflat]
        exact List.mem_append_right _ he
      · intro v hv
        rw [hflat] at hv
        rcases List.mem_append.mp hv with h1 | h2
        · exact (hfront (kw, v) h1 rfl).elim
        · exact h2

/-- C9 witness: the call f(1, a=2, b=3) against (self, x, **kw) puts
the captured entry a=2 at top level of the flattened binding map. -/
theorem var_kw_flattening_witness :
    ("a", Value.int 2) ∈
      flattenVarKw ⟨[⟨"self", false⟩, ⟨"x", false⟩], some "kw"⟩
        [("x", Value.int 1),
         ("kw", Value.dict [("a", Value.int 2), ("b", Value.int 3)])] := by
  have h := var_kw_flattening
    ⟨[⟨"self", false⟩, ⟨"x", false⟩], some "kw"⟩
    [Value.int 1] [("a", Value.int 2), ("b", Value.int 3)]
    [("x", Value.int 1),
     ("kw", Value.dict [("a", Value.int 2), ("b", Value.int 3)])] rfl
  exact (h.2 "kw" [("a", Value.int 2), ("b", Value.int 3)] rfl (by decide)
    rfl).1 ("a", Value.int 2) (List.mem_cons_self _ _)

/- ------------------------------------------------------------------
C6: copy yields a fresh, registered task with equal configuration
------------------------------------------------------------------ -/

@[simp]
theorem set_append_len (l : List α) (a b : α) :
    (l ++ [a]).set l.length b = l ++ [b] := by
  simp

@[simp]
theorem uuidString_length (n : Nat) : (uuidString n).length = n + 1 := by
  simp [uuidString, String.length]

/-- C6: copy produces a shallow duplicate under a fresh id — the new
task's id differs from the original's (ids in use are shorter than the
next generated token), the copy is registered under its new id, and
every other configuration field, the heap reference of the secrets
mapping included (shared by reference), is equal to the original's. -/
theorem copy_fresh_id_and_fields (w : World) (ref : Nat)
    (href : ref < w.store.length)
    (hfresh : ((w.task ref).id).length ≤ w.counter) :
    ((Task.copy w ref).1.task (Task.copy w ref).2).id ≠ (w.task ref).id ∧
    lookupKey ((Task.copy w ref).1.task (Task.copy w ref).2).id
        (Task.copy w ref).1.registry = some (Task.copy w ref).2 ∧
    ((Task.copy w ref).1.task (Task.copy w ref).2).name = (w.task ref).name ∧
    ((Task.copy w ref).1.task (Task.copy w ref).2).description =
      (w.task ref).description ∧
    ((Task.copy w ref).1.task (Task.copy w ref).2).max_retries =
      (w.task ref).max_retries ∧
    ((Task.copy w ref).1.task (Task.copy w ref).2).retry_delay =
      (w.task ref).retry_delay ∧
    ((Task.copy w ref).1.task (Task.copy w ref).2).timeout =
      (w.task ref).timeout ∧
    ((Task.copy w ref).1.task (Task.copy w ref).2).trigger =
      (w.task ref).trigger ∧
    ((Task.copy w ref).1.task (Task.copy w ref).2).secrets =
      (w.task ref).secrets ∧
    ((Task.copy w ref).1.task (Task.copy w ref).2)._prefect_version =
      (w.task ref)._prefect_version := by
  have hid : ((Task.copy w ref).1.task (Task.copy w ref).2).id =
      uuidString w.counter := by
    simp [Task.copy, World.setTaskId, World.register, World.task,
      generate_uuid]
  refine ⟨?_, ?_, ?_, ?_, ?_, ?_, ?_, ?_, ?_, ?_⟩
  · rw [hid]
    intro he
    have hlen := congrArg String.length he
    rw [uuidString_length] at hlen
    omega
  all_goals
    simp [Task.copy, World.setTaskId, World.register, World.task,
      generate_uuid]

/-- A world holding one freshly constructed task, used as the concrete
instance for the copy claim. -/
def wC6 : World :=
  (Task.init ⟨[], [], 0, 0⟩ "Task" "v" Option.none Option.none Option.none
    0 60 Option.none Option.none Option.none Option.none).1

/-- C6 witness: copying the task of that world gives a distinct id and
a registered copy. -/
theorem copy_fresh_id_and_fields_witness :
    ((Task.copy wC6 0).1.task (Task.copy wC6 0).2).id ≠ (wC6.task 0).id ∧
    lookupKey ((Task.copy wC6 0).1.task (Task.copy wC6 0).2).id
        (Task.copy wC6 0).1.registry = some (Task.copy wC6 0).2 ∧
    ((Task.copy wC6 0).1.task (Task.copy wC6 0).2).secrets =
      (wC6.task 0).secrets := by
  have h := copy_fresh_id_and_fields wC6 0 (by decide) (by decide)
  exact ⟨h.1, h.2.1, h.2.2.2.2.2.2.2.2.1⟩

/- ------------------------------------------------------------------
C3: deserialize after serialize restores id and configuration
------------------------------------------------------------------ -/

/-- C3: deserializing a serialized task yields a task whose id is
explicitly set from the mapping's id field — overriding the identifier
generated during reconstruction — which is re-registered under that id,
and whose name, description, max_retries, retry_delay, timeout and
trigger equal the original's. -/
theorem deserialize_serialize_roundtrip (w : World) (ver : String)
    (t : Task) :
    ((Task.deserialize w ver (Task.serialize t)).1.task
        (Task.deserialize w ver (Task.serialize t)).2).id = t.id ∧
    ((Task.deserialize w ver (Task.serialize t)).1.task
        (Task.deserialize w ver (Task.serialize t)).2).name = t.name ∧
    ((Task.deserialize w ver (Task.serialize t)).1.task
        (Task.deserialize w ver (Task.serialize t)).2).description =
      t.description ∧
    ((Task.deserialize w ver (Task.serialize t)).1.task
        (Task.deserialize w ver (Task.serialize t)).2).max_retries =
      t.max_retries ∧
    ((Task.deserialize w ver (Task.serialize t)).1.task
        (Task.deserialize w ver (Task.serialize t)).2).retry_delay =
      t.retry_delay ∧
    ((Task.deserialize w ver (Task.serialize t)).1.task
        (Task.deserialize w ver (Task.serialize t)).2).timeout =
      t.timeout ∧
    ((Task.deserialize w ver (Task.serialize t)).1.task
        (Task.deserialize w ver (Task.serialize t)).2).trigger =
      t.trigger ∧
    lookupKey t.id
        (Task.deserialize w ver (Task.serialize t)).1.registry =
      some (Task.deserialize w ver (Task.serialize t)).2 := by
  obtain ⟨tid, tname, tdesc, tmr, trd, ttmo, ttr, tsec, tver, tty⟩ := t
  cases tdesc <;> cases ttmo <;>
    simp [Task.deserialize, Task.serialize, Task.init,
      Task.after_deserialize, World.setTaskId, World.register, World.task,
      generate_uuid, decodeStr, decodeOptStr, decodeInt, decodeOptInt,
      decodeTrig, encodeOptStr, encodeOptInt, lookupKey, serializeBase]

end Prefect
